import Mathlib

/-
Shallow embedding of the ElectionScraper repository (src/main.py, src/scraper.py).

Python strings are modelled as Lean Strings; the str methods the code uses
(strip, lower, replace, endswith, the in operator) are modelled character by
character on List Char so that every definition reduces in the kernel.
Python dicts are modelled as insertion-ordered association lists.
-/

/-- The whitespace characters Python str.strip() removes (ASCII subset). -/
def isPySpace (c : Char) : Bool :=
  c = ' ' || c = Char.ofNat 9 || c = Char.ofNat 10 || c = Char.ofNat 13 ||
    c = Char.ofNat 11 || c = Char.ofNat 12

/-- Python str.strip(): drop leading and trailing whitespace. -/
def pyStripChars (l : List Char) : List Char :=
  ((l.dropWhile isPySpace).reverse.dropWhile isPySpace).reverse

/-- str.strip() on a String. -/
def pyStrip (s : String) : String := String.mk (pyStripChars s.data)

/-- Python str.lower(); Char.toLower covers the ASCII letters the inputs use. -/
def pyLowerChars (l : List Char) : List Char := l.map Char.toLower

/-- Python s.replace(old, ""): delete every non-overlapping occurrence of old,
scanning left to right.  Written with fuel so it reduces in the kernel; fuel
s.length is enough because every step consumes at least one character. -/
def pyRemoveAux (old : List Char) : Nat → List Char → List Char
  | 0, s => s
  | _ + 1, [] => []
  | fuel + 1, c :: rest =>
    if old ≠ [] && old.isPrefixOf (c :: rest) then
      pyRemoveAux old fuel ((c :: rest).drop old.length)
    else
      c :: pyRemoveAux old fuel rest

/-- s.replace(old, "") at the list level. -/
def pyRemove (old : List Char) (s : List Char) : List Char := pyRemoveAux old s.length s

/-- The Python in operator on strings: sub occurs contiguously in hay. -/
def strContainsSub (hay sub : List Char) : Bool :=
  (List.range (hay.length + 1)).any (fun i => sub.isPrefixOf (hay.drop i))

/-- Python dict assignment d[k] = v: an existing key keeps its position and
gets the new value; a new key is appended (insertion order).  Keys occur at
most once in every dict the program builds, so replacing the first
occurrence is exact. -/
def dictInsert {β : Type} : List (String × β) → String → β → List (String × β)
  | [], k, v => [(k, v)]
  | p :: rest, k, v =>
    if p.1 == k then (k, v) :: rest else p :: dictInsert rest k v

/-- Python d.get(k) / d[k]: the value stored at key k, if any. -/
def dictGet {β : Type} (d : List (String × β)) (k : String) : Option β :=
  (d.find? (fun p => p.1 == k)).map (fun p => p.2)

/-- Outcome of validate_user_input; .ok means the function returns normally,
the error constructors are its three sys.exit(1) sites in source order. -/
inductive VOutcome where
  | ok
  | errBadFilename
  | errNoDistrict
  | errMismatch
deriving DecidableEq

/-- The double-quote character. -/
def quoteChar : Char := Char.ofNat 34

/-- The single-quote character. -/
def singleQuoteChar : Char := Char.ofNat 39

/-- scraper.py line 263: the filename must end with ".csv" (case-insensitively)
and contain no quote character of either kind. -/
def filenameOk (outputFilename : String) : Bool :=
  (".csv".data.isSuffixOf (pyLowerChars outputFilename.data)) &&
    !(outputFilename.data.any (fun c => c = quoteChar || c = singleQuoteChar))

/-- scraper.py line 268: lower-case the filename, delete every occurrence of
".csv" and then of "vysledky_", and strip whitespace. -/
def district_from_filename (outputFilename : String) : List Char :=
  pyStripChars (pyRemove "vysledky_".data (pyRemove ".csv".data
    (pyLowerChars outputFilename.data)))

/-- scraper.py lines 271-276: the first district whose url equals the user url
after stripping both; its name is lower-cased. -/
def findDistrict : List (String × String) → String → Option (List Char)
  | [], _ => none
  | (name, url) :: rest, userUrl =>
    if pyStripChars userUrl.data = pyStripChars url.data then
      some (pyLowerChars name.data)
    else findDistrict rest userUrl

/-- scraper.py lines 251-286, validate_user_input. -/
def validate_user_input (userUrl : String) (outputFilename : String)
    (districts : List (String × String)) : VOutcome :=
  if !filenameOk outputFilename then .errBadFilename
  else
    match findDistrict districts userUrl with
    | none => .errNoDistrict
    | some districtFromUrl =>
      if !strContainsSub districtFromUrl (district_from_filename outputFilename) then
        .errMismatch
      else .ok

/-- The district index of the C2 scenario. -/
def districtIndexAB : List (String × String) :=
  [("district a", "https://x/a"), ("district b", "https://x/b")]

/-- The empty string is a substring of everything, as in Python. -/
theorem strContainsSub_nil (hay : List Char) : strContainsSub hay [] = true := by
  unfold strContainsSub
  rw [List.any_eq_true]
  refine ⟨0, ?_, ?_⟩
  · simp [List.mem_range]
  · cases hay.drop 0 <;> rfl

/-- C2 counterexample: with the spec's own index, filename
"vysledky_district_a.csv" and the matching url "https://x/a", validation does
not pass: the derived string "district_a" (underscore) is not a substring of
the district name "district a" (space), so the run exits with code 1. -/
theorem validate_scenario_underscore_mismatch :
    validate_user_input "https://x/a" "vysledky_district_a.csv" districtIndexAB ≠
        VOutcome.ok ∧
      validate_user_input "https://x/a" "vysledky_district_a.csv" districtIndexAB =
        VOutcome.errMismatch := by
  constructor
  · decide
  · decide

/-- C2 (amended): for a filename passing the well-formedness check and a url
matching some district, validation passes exactly when the district string
derived from the filename occurs verbatim as a substring of the matched
district's lower-cased name (underscores are not translated to spaces); on any
mismatch it terminates with exit code 1 (the errMismatch outcome). -/
theorem validate_passes_iff_substring (userUrl outputFilename : String)
    (districts : List (String × String)) (nm : List Char)
    (hfn : filenameOk outputFilename = true)
    (hfind : findDistrict districts userUrl = some nm) :
    validate_user_input userUrl outputFilename districts = VOutcome.ok ↔
      strContainsSub nm (district_from_filename outputFilename) = true := by
  unfold validate_user_input
  rw [hfn, hfind]
  cases h : strContainsSub nm (district_from_filename outputFilename) <;>
    simp [h]

/-- C2 witness: with the space spelled out in the filename, the matching url
passes validation, via the amended theorem. -/
theorem validate_passes_iff_substring_witness :
    filenameOk "vysledky_district a.csv" = true ∧
      findDistrict districtIndexAB "https://x/a" = some "district a".data ∧
      validate_user_input "https://x/a" "vysledky_district a.csv" districtIndexAB =
        VOutcome.ok := by
  refine ⟨by decide, by decide, ?_⟩
  exact (validate_passes_iff_substring "https://x/a" "vysledky_district a.csv"
    districtIndexAB "district a".data (by decide) (by decide)).mpr (by decide)

/-- C9 counterexample: the filename "vysledky_" derives the empty district
string and the url matches a district, yet validate_user_input terminates the
run, because the filename fails the ".csv" well-formedness check. -/
theorem validate_empty_derived_still_exits :
    district_from_filename "vysledky_" = [] ∧
      findDistrict districtIndexAB "https://x/a" = some "district a".data ∧
      validate_user_input "https://x/a" "vysledky_" districtIndexAB ≠ VOutcome.ok := by
  refine ⟨by decide, by decide, by decide⟩

/-- C9 (amended): if the district string derived from the output filename is
empty and the url matches some district, the filename-district consistency
check never fires (the outcome is never errMismatch), and if the filename also
passes the well-formedness check, validation passes. -/
theorem validate_empty_derived_passes (userUrl outputFilename : String)
    (districts : List (String × String)) (nm : List Char)
    (hder : district_from_filename outputFilename = [])
    (hfind : findDistrict districts userUrl = some nm) :
    validate_user_input userUrl outputFilename districts ≠ VOutcome.errMismatch ∧
      (filenameOk outputFilename = true →
        validate_user_input userUrl outputFilename districts = VOutcome.ok) := by
  unfold validate_user_input
  cases hok : filenameOk outputFilename with
  | false => simp
  | true =>
    rw [hfind, hder]
    simp [strContainsSub_nil]

/-- C9 witness: the filename "vysledky_.csv" derives the empty string, is
well-formed, and validation passes for the matching url. -/
theorem validate_empty_derived_passes_witness :
    district_from_filename "vysledky_.csv" = [] ∧
      findDistrict districtIndexAB "https://x/a" = some "district a".data ∧
      validate_user_input "https://x/a" "vysledky_.csv" districtIndexAB =
        VOutcome.ok := by
  refine ⟨by decide, by decide, ?_⟩
  exact (validate_empty_derived_passes "https://x/a" "vysledky_.csv"
    districtIndexAB "district a".data (by decide) (by decide)).2 (by decide)

/-- One HTML table, holding exactly what the two collectors read from it:
the texts of its th cells carrying rowspan="2", the texts of its td cells of
class "cislo", and, per tr row, the texts of that row's td cells. -/
structure HtmlTable where
  rowspanThs : List String
  cisloTds : List String
  trRows : List (List String)
deriving DecidableEq

/-- A fetched page: its tables in document order. -/
structure Page where
  tables : List HtmlTable
deriving DecidableEq

/-- scraper.py lines 116-140: the municipality loop of
get_district_turnout_summary.  fetch stands for get_page_content (network
calls are inputs here); a unit is (name, url, xobec code), the code being
Option because extract_district_units can store None.  A None code is
rendered as the empty field, as it is by pandas in the produced CSV. -/
def turnoutLoop (fetch : String → Option Page) :
    List (String × String × Option String) → Option (List String) →
      List (List String) → Option (List String) × List (List String)
  | [], hdr, rows => (hdr, rows)
  | (districtUnit, url, code) :: rest, hdr, rows =>
    match fetch url with
    | none => turnoutLoop fetch rest hdr rows
    | some page =>
      match page.tables.head? with
      | none => turnoutLoop fetch rest hdr rows
      | some t =>
        let hdr' := match hdr with
          | none => some (["Číslo obce", "Obec"] ++ t.rowspanThs.map pyStrip)
          | some h => some h
        let dataRow := (t.cisloTds.drop 3).map pyStrip
        turnoutLoop fetch rest hdr' (rows ++ [districtUnit :: code.getD "" :: dataRow])

/-- scraper.py get_district_turnout_summary: headers are derived from the first
successfully fetched page holding a table; each collected row is
[unit name, unit code] ++ the stripped numeric cells after the first three. -/
def get_district_turnout_summary (fetch : String → Option Page)
    (units : List (String × String × Option String)) :
    Option (List String) × List (List String) :=
  turnoutLoop fetch units none []

/-- A municipality page with one turnout table: one double-span header cell
and four numeric cells (the first three being the skipped duplicates). -/
def unitPageT1 : Page :=
  ⟨[⟨["Voliči v seznamu"], ["1", "2", "3", "7"], []⟩]⟩

/-- C1: the collected row does not align with the header's synthetic prefix.
For unit "Unit1" with code "500054", the header places "Číslo obce" at index 0
and "Obec" at index 1, but the row places the unit NAME at index 0 and the
CODE at index 1, so the "Obec" column holds the code and "Číslo obce" holds
the name (which also breaks the later merge on "Obec"). -/
theorem turnout_row_misaligned_with_header :
    get_district_turnout_summary (fun _ => some unitPageT1)
        [("Unit1", "u1", some "500054")] =
      (some ["Číslo obce", "Obec", "Voliči v seznamu"],
        [["Unit1", "500054", "7"]]) ∧
      ["Číslo obce", "Obec", "Voliči v seznamu"].indexOf "Obec" = 1 ∧
      ["Unit1", "500054", "7"].getD 1 "" = "500054" ∧
      ["Unit1", "500054", "7"].getD 0 "" = "Unit1" := by
  refine ⟨by decide, by decide, by decide, by decide⟩

/-- A page whose first table has one double-span header cell but only three
numeric cells, so that the data row is empty after dropping three. -/
def shapePageBad : Page := ⟨[⟨["A"], ["1", "2", "3"], []⟩]⟩

/-- C6 counterexample: a run with a single page (which trivially shares the
reference page's table shape) where the header has length 3 but the collected
row has length 2. -/
theorem turnout_header_row_length_mismatch :
    get_district_turnout_summary (fun _ => some shapePageBad)
        [("U1", "u1", some "c1")] =
      (some ["Číslo obce", "Obec", "A"], [["U1", "c1"]]) ∧
      ["Číslo obce", "Obec", "A"].length ≠ ["U1", "c1"].length := by
  refine ⟨by decide, by decide⟩

/-- Loop invariant for C6: if every fetched first table has N double-span
header cells and N + 3 numeric cells, a produced header and all accumulated
rows have length N + 2. -/
theorem turnoutLoop_lengths (fetch : String → Option Page) (N : Nat)
    (hshape : ∀ url page t, fetch url = some page → page.tables.head? = some t →
      t.rowspanThs.length = N ∧ t.cisloTds.length = N + 3) :
    ∀ (units : List (String × String × Option String))
      (hdr : Option (List String)) (rows : List (List String)),
      (∀ h0, hdr = some h0 → h0.length = N + 2) →
      (∀ r ∈ rows, r.length = N + 2) →
      (∀ h0, (turnoutLoop fetch units hdr rows).1 = some h0 → h0.length = N + 2) ∧
        (∀ r ∈ (turnoutLoop fetch units hdr rows).2, r.length = N + 2) := by
  intro units
  induction units with
  | nil =>
    intro hdr rows hh hr
    exact ⟨hh, hr⟩
  | cons u rest ih =>
    intro hdr rows hh hr
    obtain ⟨districtUnit, url, code⟩ := u
    simp only [turnoutLoop]
    cases hf : fetch url with
    | none => exact ih hdr rows hh hr
    | some page =>
      dsimp only
      cases ht : page.tables.head? with
      | none => exact ih hdr rows hh hr
      | some t =>
        dsimp only
        obtain ⟨hths, hcis⟩ := hshape url page t hf ht
        apply ih
        · intro h0 hh0
          cases hdr with
          | none =>
            simp only [Option.some.injEq] at hh0
            subst hh0
            simp [hths]
          | some h1 =>
            simp only [Option.some.injEq] at hh0
            subst hh0
            exact hh h1 rfl
        · intro r hrmem
          rcases List.mem_append.mp hrmem with hold | hnew
          · exact hr r hold
          · rcases List.mem_singleton.mp hnew with rfl
            simp [hcis]

/-- C6 (amended): the turnout header length equals every collected row's field
count, provided all successfully fetched pages share the reference page's
table shape AND that shape has exactly three more numeric-flagged cells than
double-row-span header cells (as the real site's turnout tables do). -/
theorem turnout_header_matches_rows (fetch : String → Option Page) (N : Nat)
    (units : List (String × String × Option String)) (h : List String)
    (hshape : ∀ url page t, fetch url = some page → page.tables.head? = some t →
      t.rowspanThs.length = N ∧ t.cisloTds.length = N + 3)
    (hh : (get_district_turnout_summary fetch units).1 = some h) :
    ∀ row ∈ (get_district_turnout_summary fetch units).2,
      row.length = h.length := by
  intro row hrow
  have hmain := turnoutLoop_lengths fetch N hshape units none []
    (by intro h0 hh0; cases hh0) (by intro r hr; cases hr)
  have h1 := hmain.1 h hh
  have h2 := hmain.2 row hrow
  rw [h1, h2]

/-- A page whose first table has one double-span header cell and four numeric
cells: the site shape, where the first three numeric cells are skipped. -/
def shapePageOk : Page := ⟨[⟨["A"], ["1", "2", "3", "4"], []⟩]⟩

/-- C6 witness: on a concrete run with the site's table shape, the amended
theorem yields header length = row length. -/
theorem turnout_header_matches_rows_witness :
    (get_district_turnout_summary (fun _ => some shapePageOk)
        [("U1", "u1", some "c1")]).1 = some ["Číslo obce", "Obec", "A"] ∧
      ∀ row ∈ (get_district_turnout_summary (fun _ => some shapePageOk)
        [("U1", "u1", some "c1")]).2,
        row.length = ["Číslo obce", "Obec", "A"].length := by
  refine ⟨by decide, ?_⟩
  apply turnout_header_matches_rows (fun _ => some shapePageOk) 1
  · intro url page t h1 h2
    cases h1
    cases h2
    exact ⟨rfl, rfl⟩
  · decide

/-- Numeric value of an ASCII digit character. -/
def digitVal (c : Char) : Nat := c.toNat - 48

/-- Digits possibly separated by single underscores, as Python int() accepts;
the accumulator already holds the value of the digits consumed so far. -/
def digitsUndAux : List Char → Nat → Option Nat
  | [], acc => some acc
  | c :: rest, acc =>
    if c.isDigit then digitsUndAux rest (acc * 10 + digitVal c)
    else if c = '_' then
      match rest with
      | d :: rest2 =>
        if d.isDigit then digitsUndAux rest2 (acc * 10 + digitVal d) else none
      | [] => none
    else none

/-- Python int(s): strip whitespace, allow one sign, then ASCII digits with
single underscores between digits; anything else raises ValueError (none). -/
def parsePyInt (s : String) : Option Int :=
  match pyStripChars s.data with
  | [] => none
  | c :: rest =>
    if c = '-' then
      match rest with
      | d :: rest2 =>
        if d.isDigit then (digitsUndAux rest2 (digitVal d)).map (fun n => -(n : Int))
        else none
      | [] => none
    else if c = '+' then
      match rest with
      | d :: rest2 =>
        if d.isDigit then (digitsUndAux rest2 (digitVal d)).map (fun n => (n : Int))
        else none
      | [] => none
    else if c.isDigit then (digitsUndAux rest (digitVal c)).map (fun n => (n : Int))
    else none

/-- scraper.py lines 178-191, the body of the row loop of
get_district_party_results.  A row with at least three cells is read as
[party number, party name, votes]; rows whose name or votes is empty or "-"
are skipped before anything is recorded; a not-yet-seen party number goes
through int(), which raises ValueError on a non-numeric string (.error). -/
def partyRow (pl : List (Int × String)) (seen : List String)
    (res : List (String × String)) (cells : List String) :
    Except Unit (List (Int × String) × List String × List (String × String)) :=
  if cells.length ≥ 3 then
    let number := pyStrip (cells.getD 0 "")
    let name := pyStrip (cells.getD 1 "")
    let votes := pyStrip (cells.getD 2 "")
    if name = "" || name = "-" || votes = "" || votes = "-" then .ok (pl, seen, res)
    else
      let res2 := dictInsert res name votes
      if seen.contains number then .ok (pl, seen, res2)
      else
        match parsePyInt number with
        | none => .error ()
        | some n => .ok (pl ++ [(n, name)], number :: seen, res2)
  else .ok (pl, seen, res)

/-- The tr loop over one table's rows. -/
def partyRowsLoop : List (Int × String) → List String → List (String × String) →
    List (List String) →
    Except Unit (List (Int × String) × List String × List (String × String))
  | pl, seen, res, [] => .ok (pl, seen, res)
  | pl, seen, res, cells :: rest =>
    match partyRow pl seen res cells with
    | .error e => .error e
    | .ok (pl2, seen2, res2) => partyRowsLoop pl2 seen2 res2 rest

/-- The table loop over soup.find_all("table")[1:]. -/
def partyTablesLoop : List (Int × String) → List String → List (String × String) →
    List HtmlTable →
    Except Unit (List (Int × String) × List String × List (String × String))
  | pl, seen, res, [] => .ok (pl, seen, res)
  | pl, seen, res, t :: rest =>
    match partyRowsLoop pl seen res t.trRows with
    | .error e => .error e
    | .ok (pl2, seen2, res2) => partyTablesLoop pl2 seen2 res2 rest

/-- scraper.py lines 159-193, the municipality loop of
get_district_party_results: skip a unit on fetch failure or when the page has
no table beyond the first; otherwise scan its party tables with a fresh
results dict and record it under the unit's name. -/
def partyUnitsLoop (fetch : String → Option Page) :
    List (Int × String) → List String →
      List (String × List (String × String)) → List (String × String) →
      Except Unit (List (Int × String) × List String ×
        List (String × List (String × String)))
  | pl, seen, data, [] => .ok (pl, seen, data)
  | pl, seen, data, (districtUnit, url) :: rest =>
    match fetch url with
    | none => partyUnitsLoop fetch pl seen data rest
    | some page =>
      let ts := page.tables.drop 1
      if ts.isEmpty then partyUnitsLoop fetch pl seen data rest
      else
        match partyTablesLoop pl seen [] ts with
        | .error e => .error e
        | .ok (pl2, seen2, res) =>
          partyUnitsLoop fetch pl2 seen2 (dictInsert data districtUnit res) rest

/-- scraper.py lines 142-208, get_district_party_results.  The accumulated
(number, name) vocabulary is sorted ascending by number with Python's stable
sorted(), modelled by insertionSort; the header is "Obec" plus the ordered
names, and each unit's row fills its observed votes with default "0". -/
def get_district_party_results (fetch : String → Option Page)
    (units : List (String × String)) :
    Except Unit (List String × List (List String)) :=
  match partyUnitsLoop fetch [] [] [] units with
  | .error e => .error e
  | .ok (pl, _, data) =>
    let sortedNames :=
      (List.insertionSort (fun a b : Int × String => a.1 ≤ b.1) pl).map
        (fun p => p.2)
    .ok ("Obec" :: sortedNames,
      data.map (fun p => p.1 :: sortedNames.map (fun n => (dictGet p.2 n).getD "0")))

/-- The rows the party loop skips without touching any state: fewer than three
cells, or a name or votes field that is empty or the placeholder dash. -/
def partyRowSkipped (cells : List String) : Prop :=
  cells.length < 3 ∨
    pyStrip (cells.getD 1 "") = "" ∨ pyStrip (cells.getD 1 "") = "-" ∨
    pyStrip (cells.getD 2 "") = "" ∨ pyStrip (cells.getD 2 "") = "-"

instance partyRowSkippedDec (cells : List String) :
    Decidable (partyRowSkipped cells) := by
  unfold partyRowSkipped
  infer_instance

/-- A skipped row leaves the accumulated state untouched. -/
theorem partyRow_skipped_eq (pl : List (Int × String)) (seen : List String)
    (res : List (String × String)) (cells : List String)
    (h : partyRowSkipped cells) :
    partyRow pl seen res cells = .ok (pl, seen, res) := by
  unfold partyRow
  by_cases hlen : cells.length ≥ 3
  · rw [if_pos hlen]
    rcases h with h | h | h | h | h
    · omega
    all_goals
      rw [List.getD_eq_getElem?_getD] at h
      simp [h]
  · rw [if_neg hlen]

/-- The row loop body never errors on a row whose party number parses (or that
is skipped, or whose number was already seen). -/
theorem partyRow_ok (pl : List (Int × String)) (seen : List String)
    (res : List (String × String)) (cells : List String)
    (h : ¬ partyRowSkipped cells →
      (parsePyInt (pyStrip (cells.getD 0 ""))).isSome = true) :
    (partyRow pl seen res cells).isOk = true := by
  by_cases hskip : partyRowSkipped cells
  · rw [partyRow_skipped_eq pl seen res cells hskip]
    rfl
  · have hnum := h hskip
    unfold partyRowSkipped at hskip
    push_neg at hskip
    obtain ⟨h1, h2, h3, h4, h5⟩ := hskip
    have hlen : cells.length ≥ 3 := by omega
    rcases Option.isSome_iff_exists.mp hnum with ⟨n, hn⟩
    simp only [List.getD_eq_getElem?_getD] at h2 h3 h4 h5 hn
    by_cases hseen : pyStrip (cells[0]?.getD "") ∈ seen
    · simp [partyRow, hlen, h2, h3, h4, h5, hseen, Except.isOk, Except.toBool]
    · simp [partyRow, hlen, h2, h3, h4, h5, hseen, hn, Except.isOk, Except.toBool]

/-- The row loop never errors when every non-skipped row's number parses. -/
theorem partyRowsLoop_ok :
    ∀ (rows : List (List String)) (pl : List (Int × String)) (seen : List String)
      (res : List (String × String)),
      (∀ cells ∈ rows, ¬ partyRowSkipped cells →
        (parsePyInt (pyStrip (cells.getD 0 ""))).isSome = true) →
      (partyRowsLoop pl seen res rows).isOk = true := by
  intro rows
  induction rows with
  | nil => intro pl seen res _; rfl
  | cons cells rest ih =>
    intro pl seen res h
    have hhead := partyRow_ok pl seen res cells (h cells (List.mem_cons_self _ _))
    unfold partyRowsLoop
    cases hrow : partyRow pl seen res cells with
    | error e => rw [hrow] at hhead; cases hhead
    | ok out =>
      obtain ⟨pl2, seen2, res2⟩ := out
      exact ih pl2 seen2 res2 (fun c hc => h c (List.mem_cons_of_mem _ hc))

/-- The table loop never errors when every non-skipped row's number parses. -/
theorem partyTablesLoop_ok :
    ∀ (ts : List HtmlTable) (pl : List (Int × String)) (seen : List String)
      (res : List (String × String)),
      (∀ t ∈ ts, ∀ cells ∈ t.trRows, ¬ partyRowSkipped cells →
        (parsePyInt (pyStrip (cells.getD 0 ""))).isSome = true) →
      (partyTablesLoop pl seen res ts).isOk = true := by
  intro ts
  induction ts with
  | nil => intro pl seen res _; rfl
  | cons t rest ih =>
    intro pl seen res h
    have hhead := partyRowsLoop_ok t.trRows pl seen res (h t (List.mem_cons_self _ _))
    unfold partyTablesLoop
    cases hrows : partyRowsLoop pl seen res t.trRows with
    | error e => rw [hrows] at hhead; cases hhead
    | ok out =>
      obtain ⟨pl2, seen2, res2⟩ := out
      exact ih pl2 seen2 res2 (fun t2 ht2 => h t2 (List.mem_cons_of_mem _ ht2))

/-- The unit loop never errors when every non-skipped row's number parses. -/
theorem partyUnitsLoop_ok (fetch : String → Option Page)
    (hnum : ∀ url page, fetch url = some page →
      ∀ t ∈ page.tables.drop 1, ∀ cells ∈ t.trRows,
        ¬ partyRowSkipped cells →
          (parsePyInt (pyStrip (cells.getD 0 ""))).isSome = true) :
    ∀ (units : List (String × String)) (pl : List (Int × String))
      (seen : List String) (data : List (String × List (String × String))),
      (partyUnitsLoop fetch pl seen data units).isOk = true := by
  intro units
  induction units with
  | nil => intro pl seen data; rfl
  | cons u rest ih =>
    intro pl seen data
    obtain ⟨districtUnit, url⟩ := u
    unfold partyUnitsLoop
    cases hf : fetch url with
    | none => exact ih pl seen data
    | some page =>
      dsimp only
      by_cases hemp : (page.tables.drop 1).isEmpty
      · rw [if_pos hemp]
        exact ih pl seen data
      · rw [if_neg hemp]
        have htab := partyTablesLoop_ok (page.tables.drop 1) pl seen []
          (hnum url page hf)
        cases hres : partyTablesLoop pl seen [] (page.tables.drop 1) with
        | error e => rw [hres] at htab; cases htab
        | ok out =>
          obtain ⟨pl2, seen2, res⟩ := out
          exact ih pl2 seen2 (dictInsert data districtUnit res)

/-- C4 (amended): the Party Results Collector never aborts PROVIDED every
scanned row it does not skip has a first cell that parses as an integer (or a
party number already seen); rows with fewer than 3 cells or with an empty or
dash name/votes field are skipped without touching any state.  (As stated the
claim is false: int() raises on a non-numeric first cell of a counted row.) -/
theorem party_results_no_abort (fetch : String → Option Page)
    (units : List (String × String))
    (hnum : ∀ url page, fetch url = some page →
      ∀ t ∈ page.tables.drop 1, ∀ cells ∈ t.trRows,
        ¬ partyRowSkipped cells →
          (parsePyInt (pyStrip (cells.getD 0 ""))).isSome = true) :
    (get_district_party_results fetch units).isOk = true ∧
      ∀ (pl : List (Int × String)) (seen : List String)
        (res : List (String × String)) (cells : List String),
        partyRowSkipped cells → partyRow pl seen res cells = .ok (pl, seen, res) := by
  constructor
  · have hok := partyUnitsLoop_ok fetch hnum units [] [] []
    unfold get_district_party_results
    cases hres : partyUnitsLoop fetch [] [] [] units with
    | error e => rw [hres] at hok; cases hok
    | ok out =>
      obtain ⟨pl, seenFin, data⟩ := out
      rfl
  · intro pl seen res cells hskip
    exact partyRow_skipped_eq pl seen res cells hskip

/-- A page whose party table holds a counted row with a non-numeric first
cell and non-placeholder name and votes fields. -/
def badNumberPage : Page :=
  ⟨[⟨[], [], []⟩, ⟨[], [], [["abc", "PartyA", "10"]]⟩]⟩

/-- C4 counterexample: on this page the row ["abc", "PartyA", "10"] is not
one of the excluded rows, int("abc") raises ValueError, and the collector
aborts the run instead of skipping. -/
theorem party_results_abort_on_nonnumeric :
    get_district_party_results (fun _ => some badNumberPage) [("U1", "u1")] =
      Except.error () ∧
      ¬ partyRowSkipped ["abc", "PartyA", "10"] := by
  constructor
  · rfl
  · decide

/-- A page whose party table rows either parse or are placeholder rows. -/
def okPartyPage : Page :=
  ⟨[⟨[], [], []⟩, ⟨[], [], [["1", "A", "5"], ["-", "-", "-"]]⟩]⟩

/-- C4 witness: a run over a page whose counted rows all have numeric party
numbers finishes without error. -/
theorem party_results_no_abort_witness :
    (get_district_party_results (fun _ => some okPartyPage) [("U1", "u1")]).isOk =
      true := by
  refine (party_results_no_abort (fun _ => some okPartyPage) [("U1", "u1")] ?_).1
  intro url page hpage
  cases hpage
  decide

/-- A page where party numbers "1" and "01" are different strings with the
same numeric value 1. -/
def dupNumberPage : Page :=
  ⟨[⟨[], [], []⟩, ⟨[], [], [["1", "A", "5"], ["01", "B", "6"]]⟩]⟩

/-- C5 counterexample: with numbers "1" and "01" (both valued 1) the
vocabulary keeps both entries, because deduplication is by the textual number
field, not the numeric identifier; deduplication by numeric identifier would
give the header ["Obec", "A"], and with both identifiers equal to 1 the names
are not in strictly ascending order of first-seen numeric identifier. -/
theorem party_header_dup_number_strings :
    get_district_party_results (fun _ => some dupNumberPage) [("U1", "u1")] =
      .ok (["Obec", "A", "B"], [["U1", "5", "6"]]) ∧
      (["Obec", "A", "B"] : List String) ≠ ["Obec", "A"] := by
  constructor
  · rfl
  · decide

instance : IsTotal (Int × String) (fun a b => a.1 ≤ b.1) :=
  ⟨fun a b => le_total a.1 b.1⟩

instance : IsTrans (Int × String) (fun a b => a.1 ≤ b.1) :=
  ⟨fun _ _ _ hab hbc => le_trans hab hbc⟩

/-- C5 (amended): given the vocabulary pl accumulated by the municipality
loop across all units in encounter order (deduplicated by the textual
party-number field), the returned header is ["Obec"] followed by exactly
pl's entries rearranged into ascending order of their numeric identifiers —
weakly ascending, ties keeping encounter order (Python's sort is stable) —
and strictly ascending whenever pl's numeric identifiers are pairwise
distinct. -/
theorem party_header_sorted (fetch : String → Option Page)
    (units : List (String × String)) (pl : List (Int × String))
    (seen : List String) (data : List (String × List (String × String)))
    (h : List String) (rows : List (List String))
    (hloop : partyUnitsLoop fetch [] [] [] units = .ok (pl, seen, data))
    (hok : get_district_party_results fetch units = .ok (h, rows)) :
    ∃ spl : List (Int × String),
      spl.Perm pl ∧
        h = "Obec" :: spl.map Prod.snd ∧
        List.Pairwise (fun a b : Int × String => a.1 ≤ b.1) spl ∧
        ((pl.map Prod.fst).Nodup →
          List.Pairwise (fun a b : Int × String => a.1 < b.1) spl) := by
  unfold get_district_party_results at hok
  rw [hloop] at hok
  dsimp only at hok
  rw [Except.ok.injEq, Prod.mk.injEq] at hok
  refine ⟨List.insertionSort (fun a b : Int × String => a.1 ≤ b.1) pl,
    List.perm_insertionSort _ pl, hok.1.symm,
    List.sorted_insertionSort _ pl, ?_⟩
  intro hnodup
  have hperm : ((List.insertionSort (fun a b : Int × String => a.1 ≤ b.1) pl).map
      Prod.fst).Perm (pl.map Prod.fst) :=
    (List.perm_insertionSort _ pl).map Prod.fst
  have hnodup2 : ((List.insertionSort (fun a b : Int × String => a.1 ≤ b.1) pl).map
      Prod.fst).Nodup := hperm.nodup_iff.mpr hnodup
  have hle := List.sorted_insertionSort (fun a b : Int × String => a.1 ≤ b.1) pl
  have hne : List.Pairwise (fun a b : Int × String => a.1 ≠ b.1)
      (List.insertionSort (fun a b : Int × String => a.1 ≤ b.1) pl) :=
    List.pairwise_map.mp hnodup2
  exact (hle.and hne).imp (fun hab => lt_of_le_of_ne hab.1 hab.2)

/-- A page declaring party number 2 before party number 1. -/
def twoPartyPage : Page :=
  ⟨[⟨[], [], []⟩, ⟨[], [], [["2", "B", "7"], ["1", "A", "5"]]⟩]⟩

/-- C5 witness: the concrete run accumulates the vocabulary
[(2, "B"), (1, "A")] and returns the header ["Obec", "A", "B"]: exactly those
names, re-ordered strictly ascending by party number. -/
theorem party_header_sorted_witness :
    ∃ spl : List (Int × String),
      spl.Perm [(2, "B"), (1, "A")] ∧
        (["Obec", "A", "B"] : List String) = "Obec" :: spl.map Prod.snd ∧
        List.Pairwise (fun a b : Int × String => a.1 ≤ b.1) spl ∧
        ((([(2, "B"), (1, "A")] : List (Int × String)).map Prod.fst).Nodup →
          List.Pairwise (fun a b : Int × String => a.1 < b.1) spl) :=
  party_header_sorted (fun _ => some twoPartyPage) [("U1", "u1")]
    [(2, "B"), (1, "A")] ["1", "2"] [("U1", [("B", "7"), ("A", "5")])]
    ["Obec", "A", "B"] [["U1", "5", "7"]] rfl rfl

/-- The fixed rename mapping of merge_two_tables (scraper.py lines 230-237). -/
def renameColumn (c : String) : String :=
  if c = "Voličiv seznamu" then "Voliči v seznamu"
  else if c = "Vydanéobálky" then "Vydané obálky"
  else if c = "Volebníúčast v %" then "Volební účast v %"
  else if c = "Odevzdanéobálky" then "Odevzdané obálky"
  else if c = "Platnéhlasy" then "Platné hlasy"
  else if c = "% platnýchhlasů" then "% platných hlasů"
  else c

/-- The malformed labels: the domain of the rename mapping. -/
def malformedLabels : List String :=
  ["Voličiv seznamu", "Vydanéobálky", "Volebníúčast v %", "Odevzdanéobálky",
    "Platnéhlasy", "% platnýchhlasů"]

/-- Drop the element at position i (the join key column of the right table
contributes no second copy to a merged row). -/
def dropNth {α : Type} (i : Nat) (l : List α) : List α := l.take i ++ l.drop (i + 1)

/-- The value a row carries in column i; "" when out of range. -/
def keyAt (i : Nat) (r : List String) : String := r.getD i ""

/-- The rows of r2s whose key column i2 holds k. -/
def matchRows (i2 : Nat) (r2s : List (List String)) (k : String) :
    List (List String) :=
  r2s.filter (fun s => keyAt i2 s == k)

/-- Left part of the pandas outer merge: each left row paired with every
right row sharing its key (key column dropped from the right contribution),
or padded with pad empty fields when nothing matches. -/
def mergeLeft (i1 i2 pad : Nat) (r2s : List (List String)) :
    List (List String) → List (List String)
  | [] => []
  | r :: rest =>
    (if matchRows i2 r2s (keyAt i1 r) = [] then [r ++ List.replicate pad ""]
     else (matchRows i2 r2s (keyAt i1 r)).map (fun s => r ++ dropNth i2 s)) ++
      mergeLeft i1 i2 pad r2s rest

/-- Right part of the outer merge: right rows whose key matches no left row,
with the left columns empty except the key column. -/
def mergeRight (i1 i2 w1 : Nat) (r1s r2s : List (List String)) :
    List (List String) :=
  (r2s.filter (fun s => r1s.all (fun r => !(keyAt i1 r == keyAt i2 s)))).map
    (fun s => (List.replicate w1 "").set i1 (keyAt i2 s) ++ dropNth i2 s)

/-- scraper.py lines 212-247, merge_two_tables: rename the first table's
malformed labels, then outer-join the two tables on the "Obec" column (the
pandas pd.merge how="outer" call).  Missing values (pandas NaN) are modelled
as "", which is how they serialize into the CSV; suffixing of duplicated
non-key column names is not modelled — no claim depends on it. -/
def merge_two_tables (headers1 : List String) (rows1 : List (List String))
    (headers2 : List String) (rows2 : List (List String)) :
    List String × List (List String) :=
  let h1 := headers1.map renameColumn
  let i1 := h1.indexOf "Obec"
  let i2 := headers2.indexOf "Obec"
  (h1 ++ dropNth i2 headers2,
    mergeLeft i1 i2 (headers2.length - 1) rows2 rows1 ++
      mergeRight i1 i2 headers1.length rows1 rows2)

/-- Appending to a row does not change a key read inside the original part. -/
theorem keyAt_append (i : Nat) (r x : List String) (h : i < r.length) :
    keyAt i (r ++ x) = keyAt i r :=
  List.getD_append r x "" i h

/-- The key of a right-only merged row is the right row's key. -/
theorem keyAt_padded (i1 w1 i2 : Nat) (k2 : String) (s : List String)
    (hw : i1 < w1) :
    keyAt i1 ((List.replicate w1 "").set i1 k2 ++ dropNth i2 s) = k2 := by
  unfold keyAt
  rw [List.getD_append _ _ _ i1 (by simp [hw])]
  rw [List.getD_eq_getElem?_getD, List.getElem?_set_self (by simp [hw])]
  rfl

/-- When key k matches no right row, the merged-left rows with key k are
exactly the left rows with key k, each padded with empty fields. -/
theorem mergeLeft_filter_of_absent (i1 i2 pad : Nat) (r2s : List (List String))
    (k : String) (habs : matchRows i2 r2s k = []) :
    ∀ r1s : List (List String), (∀ r ∈ r1s, i1 < r.length) →
      (mergeLeft i1 i2 pad r2s r1s).filter (fun row => keyAt i1 row == k) =
        (r1s.filter (fun r => keyAt i1 r == k)).map
          (fun r => r ++ List.replicate pad "") := by
  intro r1s
  induction r1s with
  | nil => intro _; rfl
  | cons r rest ih =>
    intro hw
    have hwr : i1 < r.length := hw r (List.mem_cons_self r rest)
    have ihr := ih (fun x hx => hw x (List.mem_cons_of_mem r hx))
    unfold mergeLeft
    rw [List.filter_append, ihr, List.filter_cons]
    by_cases hk : (keyAt i1 r == k) = true
    · have hkeq : keyAt i1 r = k := beq_iff_eq.mp hk
      rw [if_pos hk, hkeq, habs, if_pos rfl, List.map_cons]
      rw [List.filter_cons]
      have : (keyAt i1 (r ++ List.replicate pad "") == k) = true := by
        rw [keyAt_append i1 r _ hwr]; exact hk
      rw [if_pos this]
      rfl
    · rw [if_neg hk]
      by_cases hm : matchRows i2 r2s (keyAt i1 r) = []
      · rw [if_pos hm, List.filter_cons]
        have : (keyAt i1 (r ++ List.replicate pad "") == k) = true ↔ False := by
          rw [keyAt_append i1 r _ hwr]; simp [hk]
        rw [if_neg (by simp [this])]
        rfl
      · rw [if_neg hm]
        have : ((matchRows i2 r2s (keyAt i1 r)).map
            (fun s => r ++ dropNth i2 s)).filter (fun row => keyAt i1 row == k) = [] := by
          apply List.filter_eq_nil_iff.mpr
          intro row hrow
          rcases List.mem_map.mp hrow with ⟨s, _, rfl⟩
          rw [keyAt_append i1 r _ hwr]
          simp [hk]
        rw [this]
        rfl

/-- When key k matches no right row, no right-only merged row has key k. -/
theorem mergeRight_filter_of_absent (i1 i2 w1 : Nat)
    (r1s r2s : List (List String)) (k : String) (hw : i1 < w1)
    (habs : matchRows i2 r2s k = []) :
    (mergeRight i1 i2 w1 r1s r2s).filter (fun row => keyAt i1 row == k) = [] := by
  apply List.filter_eq_nil_iff.mpr
  intro row hrow
  unfold mergeRight at hrow
  rcases List.mem_map.mp hrow with ⟨s, hs, rfl⟩
  rw [keyAt_padded i1 w1 i2 _ s hw]
  have hsk := List.filter_eq_nil_iff.mp habs s (List.mem_of_mem_filter hs)
  simpa using hsk

/-- Every merged-left row's key is the key of one of the left rows. -/
theorem mergeLeft_key_mem (i1 i2 pad : Nat) (r2s : List (List String)) :
    ∀ r1s, (∀ r ∈ r1s, i1 < r.length) →
      ∀ row ∈ mergeLeft i1 i2 pad r2s r1s, ∃ r ∈ r1s, keyAt i1 row = keyAt i1 r := by
  intro r1s
  induction r1s with
  | nil => intro _ row hrow; cases hrow
  | cons r rest ih =>
    intro hw row hrow
    unfold mergeLeft at hrow
    rcases List.mem_append.mp hrow with hb | hrest
    · have hwr : i1 < r.length := hw r (List.mem_cons_self r rest)
      refine ⟨r, List.mem_cons_self r rest, ?_⟩
      by_cases hm : matchRows i2 r2s (keyAt i1 r) = []
      · rw [if_pos hm] at hb
        rcases List.mem_singleton.mp hb with rfl
        exact keyAt_append i1 r _ hwr
      · rw [if_neg hm] at hb
        rcases List.mem_map.mp hb with ⟨s, _, rfl⟩
        exact keyAt_append i1 r _ hwr
    · rcases ih (fun x hx => hw x (List.mem_cons_of_mem r hx)) row hrest with
        ⟨r2, hr2, hkey⟩
      exact ⟨r2, List.mem_cons_of_mem r hr2, hkey⟩

/-- When no left row has key k, no merged-left row has key k. -/
theorem mergeLeft_filter_of_no_left (i1 i2 pad : Nat)
    (r2s r1s : List (List String)) (k : String)
    (hw : ∀ r ∈ r1s, i1 < r.length)
    (hnone : r1s.filter (fun r => keyAt i1 r == k) = []) :
    (mergeLeft i1 i2 pad r2s r1s).filter (fun row => keyAt i1 row == k) = [] := by
  apply List.filter_eq_nil_iff.mpr
  intro row hrow hcontra
  rcases mergeLeft_key_mem i1 i2 pad r2s r1s hw row hrow with ⟨r, hr, hkey⟩
  have hnr := List.filter_eq_nil_iff.mp hnone r hr
  rw [hkey] at hcontra
  exact hnr hcontra

/-- When no left row has key k and exactly one right row does, that right row
gives the unique right-only merged row carrying key k. -/
theorem mergeRight_filter_of_unique (i1 i2 w1 : Nat)
    (r1s r2s : List (List String)) (k : String) (s : List String) (hw : i1 < w1)
    (hnoleft : r1s.filter (fun r => keyAt i1 r == k) = [])
    (hright : r2s.filter (fun x => keyAt i2 x == k) = [s]) :
    (mergeRight i1 i2 w1 r1s r2s).filter (fun row => keyAt i1 row == k) =
      [(List.replicate w1 "").set i1 k ++ dropNth i2 s] := by
  have hs_mem : s ∈ r2s.filter (fun x => keyAt i2 x == k) := by
    rw [hright]; exact List.mem_singleton.mpr rfl
  have hks : keyAt i2 s = k := beq_iff_eq.mp (List.mem_filter.mp hs_mem).2
  unfold mergeRight
  rw [List.filter_map]
  have hcongr : List.filter
      ((fun row => keyAt i1 row == k) ∘ fun s =>
        (List.replicate w1 "").set i1 (keyAt i2 s) ++ dropNth i2 s)
      (r2s.filter (fun s => r1s.all (fun r => !(keyAt i1 r == keyAt i2 s)))) =
    List.filter (fun x => keyAt i2 x == k)
      (r2s.filter (fun s => r1s.all (fun r => !(keyAt i1 r == keyAt i2 s)))) := by
    apply List.filter_congr
    intro x _
    simp only [Function.comp]
    rw [keyAt_padded i1 w1 i2 _ x hw]
  rw [hcongr]
  simp only [List.filter_filter]
  have hqp : List.filter (fun a => (keyAt i2 a == k) &&
      r1s.all (fun r => !(keyAt i1 r == keyAt i2 a))) r2s =
    List.filter (fun a => keyAt i2 a == k) r2s := by
    apply List.filter_congr
    intro x _
    by_cases hq : (keyAt i2 x == k) = true
    · have hkx : keyAt i2 x = k := beq_iff_eq.mp hq
      have hP : (r1s.all (fun r => !(keyAt i1 r == keyAt i2 x))) = true := by
        rw [List.all_eq_true]
        intro r hr
        have hnr := List.filter_eq_nil_iff.mp hnoleft r hr
        rw [hkx]
        simpa using hnr
      rw [hq, hP]
      rfl
    · simp only [Bool.not_eq_true] at hq
      rw [hq]
      rfl
  rw [hqp, hright]
  simp [hks]

/-- A key held by exactly one left row and no right row yields exactly one
merged row: that left row padded with empty right fields. -/
theorem mergeTables_left_only (headers1 : List String)
    (rows1 : List (List String)) (headers2 : List String)
    (rows2 : List (List String)) (k : String) (r : List String)
    (m1 : "Obec" ∈ headers1.map renameColumn)
    (w1 : ∀ row ∈ rows1, row.length = headers1.length)
    (hleft : rows1.filter (fun x =>
      keyAt ((headers1.map renameColumn).indexOf "Obec") x == k) = [r])
    (habs : rows2.filter (fun x =>
      keyAt (headers2.indexOf "Obec") x == k) = []) :
    (merge_two_tables headers1 rows1 headers2 rows2).2.filter
        (fun row => keyAt ((headers1.map renameColumn).indexOf "Obec") row == k) =
      [r ++ List.replicate (headers2.length - 1) ""] := by
  have hi1 : (headers1.map renameColumn).indexOf "Obec" < headers1.length := by
    have hlen := List.indexOf_lt_length.mpr m1
    simpa using hlen
  have hwlt : ∀ row ∈ rows1,
      (headers1.map renameColumn).indexOf "Obec" < row.length := by
    intro row hrow
    rw [w1 row hrow]
    exact hi1
  have habs2 : matchRows (headers2.indexOf "Obec") rows2 k = [] := habs
  unfold merge_two_tables
  dsimp only
  rw [List.filter_append]
  rw [mergeLeft_filter_of_absent _ _ _ rows2 k habs2 rows1 hwlt, hleft]
  rw [mergeRight_filter_of_absent _ _ _ rows1 rows2 k hi1 habs2]
  simp

/-- A key held by exactly one right row and no left row yields exactly one
merged row: empty left columns except the key cell, then that right row's
non-key fields. -/
theorem mergeTables_right_only (headers1 : List String)
    (rows1 : List (List String)) (headers2 : List String)
    (rows2 : List (List String)) (k : String) (s : List String)
    (m1 : "Obec" ∈ headers1.map renameColumn)
    (w1 : ∀ row ∈ rows1, row.length = headers1.length)
    (hnone : rows1.filter (fun x =>
      keyAt ((headers1.map renameColumn).indexOf "Obec") x == k) = [])
    (hone : rows2.filter (fun x =>
      keyAt (headers2.indexOf "Obec") x == k) = [s]) :
    (merge_two_tables headers1 rows1 headers2 rows2).2.filter
        (fun row => keyAt ((headers1.map renameColumn).indexOf "Obec") row == k) =
      [(List.replicate headers1.length "").set
          ((headers1.map renameColumn).indexOf "Obec") k ++
        dropNth (headers2.indexOf "Obec") s] := by
  have hi1 : (headers1.map renameColumn).indexOf "Obec" < headers1.length := by
    have hlen := List.indexOf_lt_length.mpr m1
    simpa using hlen
  have hwlt : ∀ row ∈ rows1,
      (headers1.map renameColumn).indexOf "Obec" < row.length := by
    intro row hrow
    rw [w1 row hrow]
    exact hi1
  unfold merge_two_tables
  dsimp only
  rw [List.filter_append]
  rw [mergeLeft_filter_of_no_left _ _ _ rows2 rows1 k hwlt hnone]
  rw [mergeRight_filter_of_unique _ _ _ rows1 rows2 k s hi1 hnone hone]
  simp

/-- C7: merge_two_tables performs a full outer join on "Obec": a key present
in exactly one input table appears exactly once among the merged rows — as
the left row padded with empty fields for the right table's columns, or as
the right row's non-key fields preceded by empty left columns except the key
cell. -/
theorem merge_outer_join_unmatched (headers1 : List String)
    (rows1 : List (List String)) (headers2 : List String)
    (rows2 : List (List String)) (k : String) (r s : List String)
    (m1 : "Obec" ∈ headers1.map renameColumn)
    (w1 : ∀ row ∈ rows1, row.length = headers1.length) :
    ((rows1.filter (fun x =>
          keyAt ((headers1.map renameColumn).indexOf "Obec") x == k) = [r] →
        rows2.filter (fun x => keyAt (headers2.indexOf "Obec") x == k) = [] →
        (merge_two_tables headers1 rows1 headers2 rows2).2.filter
            (fun row =>
              keyAt ((headers1.map renameColumn).indexOf "Obec") row == k) =
          [r ++ List.replicate (headers2.length - 1) ""]) ∧
      (rows1.filter (fun x =>
          keyAt ((headers1.map renameColumn).indexOf "Obec") x == k) = [] →
        rows2.filter (fun x => keyAt (headers2.indexOf "Obec") x == k) = [s] →
        (merge_two_tables headers1 rows1 headers2 rows2).2.filter
            (fun row =>
              keyAt ((headers1.map renameColumn).indexOf "Obec") row == k) =
          [(List.replicate headers1.length "").set
              ((headers1.map renameColumn).indexOf "Obec") k ++
            dropNth (headers2.indexOf "Obec") s])) := by
  constructor
  · intro hleft habs
    exact mergeTables_left_only headers1 rows1 headers2 rows2 k r m1 w1 hleft habs
  · intro hnone hone
    exact mergeTables_right_only headers1 rows1 headers2 rows2 k s m1 w1 hnone hone

/-- C7 witness: with key "B" present only in the left table, the merged rows
carry exactly one "B" row, padded with an empty field for the right table's
party column. -/
theorem merge_outer_join_unmatched_witness :
    (merge_two_tables ["Obec", "X"] [["A", "1"], ["B", "2"]] ["Obec", "P"]
        [["A", "9"], ["C", "7"]]).2.filter
      (fun row => keyAt ((["Obec", "X"].map renameColumn).indexOf "Obec") row ==
        "B") = [["B", "2"] ++ List.replicate (["Obec", "P"].length - 1) ""] := by
  exact (merge_outer_join_unmatched ["Obec", "X"] [["A", "1"], ["B", "2"]]
    ["Obec", "P"] [["A", "9"], ["C", "7"]] "B" ["B", "2"] []
    (by decide) (by decide)).1 (by decide) (by decide)

/-- C8 counterexample: merge_two_tables renames only the FIRST table's
columns; the malformed label "Platnéhlasy" in the second table's headers
survives into the merged header unrewritten. -/
theorem merge_second_table_not_renamed :
    (merge_two_tables ["Obec"] [] ["Obec", "Platnéhlasy"] []).1 =
        ["Obec", "Platnéhlasy"] ∧
      "Platnéhlasy" ∈ (merge_two_tables ["Obec"] [] ["Obec", "Platnéhlasy"] []).1 ∧
      "Platnéhlasy" ∈ malformedLabels := by
  refine ⟨by decide, by decide, by decide⟩

/-- C8 (amended): before the join every occurrence of a malformed label in
the FIRST input table's headers is rewritten to its canonical form — the
renamed first-table header part contains no malformed label — while the
second table's headers are carried into the merged header unchanged. -/
theorem merge_renames_first_table_headers (headers1 : List String)
    (rows1 : List (List String)) (headers2 : List String)
    (rows2 : List (List String)) (c : String) :
    (merge_two_tables headers1 rows1 headers2 rows2).1 =
        headers1.map renameColumn ++ dropNth (headers2.indexOf "Obec") headers2 ∧
      (c ∈ headers1.map renameColumn → c ∉ malformedLabels) := by
  constructor
  · rfl
  · intro hc
    rcases List.mem_map.mp hc with ⟨x, _, rfl⟩
    unfold renameColumn
    split_ifs with h1 h2 h3 h4 h5 h6
    · decide
    · decide
    · decide
    · decide
    · decide
    · decide
    · intro hmem
      simp only [malformedLabels, List.mem_cons, List.not_mem_nil, or_false] at hmem
      rcases hmem with h | h | h | h | h | h
      · exact h1 h
      · exact h2 h
      · exact h3 h
      · exact h4 h
      · exact h5 h
      · exact h6 h

/-- C8 witness: "Platnéhlasy" in the first table is rewritten to the
canonical "Platné hlasy", which is not a malformed label. -/
theorem merge_renames_first_table_headers_witness :
    ("Platné hlasy" ∈ ["Platnéhlasy"].map renameColumn) ∧
      "Platné hlasy" ∉ malformedLabels :=
  ⟨by decide,
    (merge_renames_first_table_headers ["Platnéhlasy"] [] [] [] "Platné hlasy").2
      (by decide)⟩

/-- Municipality page U1: a turnout table followed by a party table. -/
def pipePageU1 : Page := ⟨[⟨[], ["1", "2", "3"], []⟩, ⟨[], [], [["1", "A", "5"]]⟩]⟩

/-- Municipality page U2: only the turnout table, no party tables. -/
def pipePageU2 : Page := ⟨[⟨[], ["1", "2", "3"], []⟩]⟩

/-- The fetch function of the C3 scenario. -/
def pipeFetch : String → Option Page := fun u =>
  if u = "u1" then some pipePageU1 else if u = "u2" then some pipePageU2 else none

/-- C3 counterexample: municipality U2 appears in the turnout rows but is
absent from the party collector's rows (its page has no table beyond the
first, so the collector skips it); in the merged output U2's row carries ""
in the party column, not "0". -/
theorem merged_absent_unit_field_not_zero :
    get_district_turnout_summary pipeFetch
        [("U1", "u1", some "c1"), ("U2", "u2", some "c2")] =
      (some ["Číslo obce", "Obec"], [["U1", "c1"], ["U2", "c2"]]) ∧
      get_district_party_results pipeFetch [("U1", "u1"), ("U2", "u2")] =
        .ok (["Obec", "A"], [["U1", "5"]]) ∧
      (merge_two_tables ["Číslo obce", "Obec"] [["U1", "c1"], ["U2", "c2"]]
          ["Obec", "A"] [["U1", "5"]]).2 =
        [["U1", "c1", ""], ["U2", "c2", ""], ["", "U1", "5"]] ∧
      (("" : String) ≠ "0") := by
  refine ⟨by decide, rfl, by decide, by decide⟩

/-- C3 (amended): the "0" default is applied inside the party collector, to
parties a processed municipality did not report; a municipality entirely
absent from the party collector's rows instead appears in the merged output
with EMPTY fields in all of the party table's columns — the empty string,
which differs from "0". -/
theorem absent_unit_party_fields_empty (fetch : String → Option Page)
    (punits : List (String × String)) (headers2 : List String)
    (rows2 : List (List String)) (headers1 : List String)
    (rows1 : List (List String)) (nm : String) (r : List String)
    (hok : get_district_party_results fetch punits = .ok (headers2, rows2))
    (m1 : "Obec" ∈ headers1.map renameColumn)
    (w1 : ∀ row ∈ rows1, row.length = headers1.length)
    (hleft : rows1.filter (fun x =>
      keyAt ((headers1.map renameColumn).indexOf "Obec") x == nm) = [r])
    (habs : rows2.filter (fun x =>
      keyAt (headers2.indexOf "Obec") x == nm) = []) :
    (merge_two_tables headers1 rows1 headers2 rows2).2.filter
        (fun row => keyAt ((headers1.map renameColumn).indexOf "Obec") row == nm) =
      [r ++ List.replicate (headers2.length - 1) ""] ∧
      ∀ f ∈ List.replicate (headers2.length - 1) "", f = "" ∧ f ≠ "0" := by
  constructor
  · exact mergeTables_left_only headers1 rows1 headers2 rows2 nm r m1 w1 hleft habs
  · intro f hf
    have hfe := List.eq_of_mem_replicate hf
    exact ⟨hfe, by rw [hfe]; decide⟩

/-- C3 witness: in the concrete pipeline run, U2's merged row is its turnout
row padded with one empty party field. -/
theorem absent_unit_party_fields_empty_witness :
    (merge_two_tables ["Číslo obce", "Obec"] [["U1", "c1"], ["U2", "c2"]]
        ["Obec", "A"] [["U1", "5"]]).2.filter
      (fun row => keyAt ((["Číslo obce", "Obec"].map renameColumn).indexOf "Obec")
        row == "c2") =
      [["U2", "c2"] ++ List.replicate (["Obec", "A"].length - 1) ""] := by
  exact (absent_unit_party_fields_empty pipeFetch [("U1", "u1"), ("U2", "u2")]
    ["Obec", "A"] [["U1", "5"]] ["Číslo obce", "Obec"]
    [["U1", "c1"], ["U2", "c2"]] "c2" ["U2", "c2"] rfl (by decide) (by decide)
    (by decide) (by decide)).1

/-- What the unit extractor reads from one tr row of a district page: the
stripped-later text of its first td of class "overflow_name" (when present),
and its first a tag together with that tag's href attribute (the tag may be
present with the attribute missing). -/
structure SoupRow where
  overflowTd : Option String
  anchor : Option (Option String)
deriving DecidableEq

/-- The base url up to and including its last slash. -/
def dirOf (s : String) : String :=
  String.mk ((s.data.reverse.dropWhile (fun c => c ≠ '/')).reverse)

/-- The scheme://host part of an absolute url. -/
def schemeHostChars (l : List Char) : List Char :=
  match (List.range (l.length + 1)).find?
      (fun i => "://".data.isPrefixOf (l.drop i)) with
  | none => []
  | some i => l.take (i + 3) ++ (l.drop (i + 3)).takeWhile (fun c => c ≠ '/')

/-- Modelled from urllib.parse.urljoin for the url shapes these pages use: a
falsy (missing or empty) href yields the base itself, an href carrying a
scheme is taken as is, an absolute path is resolved against the base's scheme
and host, and a relative one against the base's directory. -/
def urljoinModel (base : String) (href : String) : String :=
  if href = "" then base
  else if strContainsSub href.data "://".data then href
  else if href.data.head? = some '/' then
    String.mk (schemeHostChars base.data ++ href.data)
  else dirOf base ++ href

/-- urljoin applied to a_tag.get("href"), which may be None. -/
def joinHref (base : String) : Option String → String
  | none => base
  | some h => urljoinModel base h

/-- Split a character list at every occurrence of sep. -/
def splitOnChar (sep : Char) : List Char → List (List Char)
  | [] => [[]]
  | c :: rest =>
    let r := splitOnChar sep rest
    if c = sep then [] :: r else (c :: r.headD []) :: r.tail

/-- Modelled from urllib.parse.urlparse: the query component of a url — what
lies after the first "?" once the fragment after the first "#" is removed. -/
def queryOf (url : String) : List Char :=
  let noFrag := (splitOnChar '#' url.data).headD []
  match splitOnChar '?' noFrag with
  | [] => []
  | [_] => []
  | _ :: q1 :: qrest => q1 ++ qrest.flatMap (fun t => '?' :: t)

/-- Modelled from urllib.parse.parse_qs (default keep_blank_values=False,
percent-decoding not exercised by these urls) followed by
.get("xobec", [None])[0]: the first nonempty value of the xobec parameter. -/
def xobecOf (url : String) : Option String :=
  let pairs := splitOnChar '&' (queryOf url)
  let kvs := pairs.filterMap (fun p =>
    match splitOnChar '=' p with
    | [] => none
    | [_] => none
    | k :: v1 :: vrest =>
      let v := v1 ++ vrest.flatMap (fun t => '=' :: t)
      if v = [] then none else some (k, v))
  (kvs.find? (fun kv => kv.1 == "xobec".data)).map (fun kv => String.mk kv.2)

/-- scraper.py lines 80-97: a row qualifies when it has both an overflow_name
cell and an anchor; its unit is (stripped name, resolved url, xobec code). -/
def rowUnit (base : String) (r : SoupRow) : Option (String × String × Option String) :=
  match r.overflowTd, r.anchor with
  | some td, some href =>
    some (pyStrip td, joinHref base href, xobecOf (joinHref base href))
  | _, _ => none

/-- One step of extract_district_units (the body of its row loop): a
non-qualifying row is skipped, a qualifying one is assigned into the dict. -/
def extractStep (base : String) (d : List (String × String × Option String))
    (r : SoupRow) : List (String × String × Option String) :=
  match rowUnit base r with
  | none => d
  | some (n, u, c) => dictInsert d n (u, c)

/-- scraper.py lines 63-99, extract_district_units: an insertion-ordered dict
from municipality name to (url, code); assignment overwrites, so for
duplicate names the last qualifying row in document order wins. -/
def extract_district_units (rows : List SoupRow) (base : String) :
    List (String × String × Option String) :=
  rows.foldl (extractStep base) []


/-- Occurrences of key k in a dict. -/
def countKey {β : Type} (d : List (String × β)) (k : String) : Nat :=
  (d.filter (fun p => p.1 == k)).length

/-- Updating key k makes it the value dictGet returns for k. -/
theorem dictGet_dictInsert_self {β : Type} (k : String) (v : β) :
    ∀ d : List (String × β), dictGet (dictInsert d k v) k = some v := by
  intro d
  induction d with
  | nil => simp [dictInsert, dictGet]
  | cons p rest ih =>
    by_cases hp : (p.1 == k) = true
    · simp [dictInsert, hp, dictGet]
    · unfold dictInsert
      rw [if_neg hp]
      unfold dictGet at ih ⊢
      rw [@List.find?_cons_of_neg _ (fun q => q.1 == k) p (dictInsert rest k v) hp]
      exact ih

/-- Updating key k leaves every other key's value unchanged. -/
theorem dictGet_dictInsert_ne {β : Type} (k k2 : String) (v : β) (hne : k2 ≠ k) :
    ∀ d : List (String × β), dictGet (dictInsert d k v) k2 = dictGet d k2 := by
  intro d
  have hkk : ¬ (((k, v).1 == k2) = true) := by
    simp only [beq_iff_eq]
    exact fun h => hne h.symm
  induction d with
  | nil =>
    unfold dictInsert dictGet
    rw [@List.find?_cons_of_neg _ (fun q => q.1 == k2) (k, v) [] hkk]
  | cons p rest ih =>
    by_cases hp : (p.1 == k) = true
    · have hpk : p.1 = k := beq_iff_eq.mp hp
      have hp2 : ¬ ((p.1 == k2) = true) := by
        rw [hpk]
        simpa using hkk
      unfold dictInsert dictGet
      rw [if_pos hp]
      rw [@List.find?_cons_of_neg _ (fun q => q.1 == k2) (k, v) rest hkk,
        @List.find?_cons_of_neg _ (fun q => q.1 == k2) p rest hp2]
    · unfold dictInsert
      rw [if_neg hp]
      by_cases hp2 : (p.1 == k2) = true
      · unfold dictGet
        rw [@List.find?_cons_of_pos _ (fun q => q.1 == k2) p (dictInsert rest k v) hp2,
          @List.find?_cons_of_pos _ (fun q => q.1 == k2) p rest hp2]
      · unfold dictGet at ih ⊢
        rw [@List.find?_cons_of_neg _ (fun q => q.1 == k2) p (dictInsert rest k v) hp2,
          @List.find?_cons_of_neg _ (fun q => q.1 == k2) p rest hp2]
        exact ih

/-- Updating key k in a dict holding it at most once yields exactly one
occurrence of k. -/
theorem countKey_dictInsert_self {β : Type} (k : String) (v : β) :
    ∀ d : List (String × β), countKey d k ≤ 1 →
      countKey (dictInsert d k v) k = 1 := by
  intro d
  induction d with
  | nil => intro _; simp [dictInsert, countKey]
  | cons p rest ih =>
    intro h
    by_cases hp : (p.1 == k) = true
    · unfold dictInsert
      rw [if_pos hp]
      unfold countKey at h ⊢
      rw [List.filter_cons] at h ⊢
      rw [if_pos hp] at h
      rw [if_pos (by simp)]
      simp only [List.length_cons] at h ⊢
      omega
    · unfold dictInsert
      rw [if_neg hp]
      unfold countKey at h ⊢
      rw [List.filter_cons] at h ⊢
      rw [if_neg hp] at h ⊢
      exact ih h

/-- Updating key k does not change the occurrence count of other keys. -/
theorem countKey_dictInsert_ne {β : Type} (k k2 : String) (v : β) (hne : k2 ≠ k) :
    ∀ d : List (String × β), countKey (dictInsert d k v) k2 = countKey d k2 := by
  intro d
  have hkk : ¬ (((k, v).1 == k2) = true) := by
    simp only [beq_iff_eq]
    exact fun h => hne h.symm
  induction d with
  | nil =>
    unfold dictInsert countKey
    rw [List.filter_cons, if_neg hkk]
  | cons p rest ih =>
    by_cases hp : (p.1 == k) = true
    · have hpk : p.1 = k := beq_iff_eq.mp hp
      have hp2 : ¬ ((p.1 == k2) = true) := by
        rw [hpk]
        simpa using hkk
      unfold dictInsert countKey
      rw [if_pos hp]
      rw [List.filter_cons, if_neg hkk, List.filter_cons, if_neg hp2]
    · unfold dictInsert countKey
      rw [if_neg hp]
      rw [List.filter_cons, List.filter_cons]
      unfold countKey at ih
      by_cases hp2 : (p.1 == k2) = true
      · rw [if_pos hp2, if_pos hp2]
        simp only [List.length_cons]
        rw [ih]
      · rw [if_neg hp2, if_neg hp2]
        exact ih

/-- A key dictGet finds occurs at least once. -/
theorem countKey_pos_of_dictGet {β : Type} (k : String) (v : β) :
    ∀ d : List (String × β), dictGet d k = some v → 1 ≤ countKey d k := by
  intro d
  induction d with
  | nil => intro h; cases h
  | cons p rest ih =>
    intro h
    by_cases hp : (p.1 == k) = true
    · unfold countKey
      rw [List.filter_cons, if_pos hp]
      simp
    · unfold dictGet at h
      rw [@List.find?_cons_of_neg _ (fun q => q.1 == k) p rest hp] at h
      unfold countKey
      rw [List.filter_cons, if_neg hp]
      exact ih h

/-- The dict built by the extract fold answers each name with the url and
code of the LAST qualifying row carrying that name; a name with no
qualifying row keeps whatever the starting dict held. -/
theorem extract_foldl_last (base : String) (nm : String) :
    ∀ (rows : List SoupRow) (d : List (String × String × Option String)),
      dictGet (rows.foldl (extractStep base) d) nm =
        match ((rows.filterMap (rowUnit base)).filter
            (fun p => p.1 == nm)).getLast? with
        | some q => some q.2
        | none => dictGet d nm := by
  intro rows
  induction rows with
  | nil => intro d; rfl
  | cons r rest ih =>
    intro d
    rw [List.foldl_cons, List.filterMap_cons]
    cases hru : rowUnit base r with
    | none =>
      have hstep : extractStep base d r = d := by
        unfold extractStep
        rw [hru]
      rw [hstep]
      exact ih d
    | some q =>
      obtain ⟨n, u, c⟩ := q
      have hstep : extractStep base d r = dictInsert d n (u, c) := by
        unfold extractStep
        rw [hru]
      rw [hstep, ih (dictInsert d n (u, c))]
      by_cases hn : ((n, u, c).1 == nm) = true
      · rw [List.filter_cons, if_pos hn]
        have hnm : n = nm := beq_iff_eq.mp hn
        cases hF : ((rest.filterMap (rowUnit base)).filter
            (fun p => p.1 == nm)).getLast? with
        | none =>
          have hFnil : (rest.filterMap (rowUnit base)).filter
              (fun p => p.1 == nm) = [] := List.getLast?_eq_none_iff.mp hF
          rw [hFnil]
          subst hnm
          exact dictGet_dictInsert_self n (u, c) d
        | some q2 =>
          have hFne : (rest.filterMap (rowUnit base)).filter
              (fun p => p.1 == nm) ≠ [] := by
            intro hc
            rw [hc] at hF
            cases hF
          obtain ⟨q0, F2, hF2⟩ := List.exists_cons_of_ne_nil hFne
          rw [hF2]
          rw [hF2] at hF
          rw [List.getLast?_cons_cons, hF]
      · rw [List.filter_cons, if_neg hn]
        cases hF : ((rest.filterMap (rowUnit base)).filter
            (fun p => p.1 == nm)).getLast? with
        | none =>
          have hne2 : nm ≠ n := by
            intro hc
            exact hn (beq_iff_eq.mpr (by rw [hc]))
          exact dictGet_dictInsert_ne n nm (u, c) hne2 d
        | some q2 => rfl

/-- Every key occurs at most once in the dict built by the extract fold. -/
theorem extract_countKey_le_one (base : String) :
    ∀ (rows : List SoupRow) (d : List (String × String × Option String)),
      (∀ k2, countKey d k2 ≤ 1) →
      ∀ k2, countKey (rows.foldl (extractStep base) d) k2 ≤ 1 := by
  intro rows
  induction rows with
  | nil => intro d h; exact h
  | cons r rest ih =>
    intro d h
    rw [List.foldl_cons]
    apply ih
    intro k2
    cases hru : rowUnit base r with
    | none =>
      have hstep : extractStep base d r = d := by
        unfold extractStep
        rw [hru]
      rw [hstep]
      exact h k2
    | some q =>
      obtain ⟨n, u, c⟩ := q
      have hstep : extractStep base d r = dictInsert d n (u, c) := by
        unfold extractStep
        rw [hru]
      rw [hstep]
      by_cases hk : k2 = n
      · subst hk
        rw [countKey_dictInsert_self k2 (u, c) d (h k2)]
      · rw [countKey_dictInsert_ne n k2 (u, c) hk d]
        exact h k2

/-- C10: when a district page holds two or more qualifying rows (an
overflow_name cell plus a hyperlink) with the same municipality name,
extract_district_units returns exactly one entry for that name, whose url and
code come from the last such row in document order; duplicate names are never
an error — the fold simply overwrites. -/
theorem extract_units_last_wins (rows : List SoupRow) (base : String)
    (nm u : String) (c : Option String)
    (hlast : ((rows.filterMap (rowUnit base)).filter
      (fun p => p.1 == nm)).getLast? = some (nm, u, c)) :
    dictGet (extract_district_units rows base) nm = some (u, c) ∧
      countKey (extract_district_units rows base) nm = 1 := by
  have hget : dictGet (extract_district_units rows base) nm = some (u, c) := by
    unfold extract_district_units
    rw [extract_foldl_last base nm rows [], hlast]
  refine ⟨hget, ?_⟩
  have hle : countKey (extract_district_units rows base) nm ≤ 1 := by
    unfold extract_district_units
    exact extract_countKey_le_one base rows []
      (by intro k2; simp [countKey]) nm
  have hge := countKey_pos_of_dictGet nm (u, c)
    (extract_district_units rows base) hget
  omega

/-- A duplicate-name row pointing at municipality page a. -/
def dupRowA : SoupRow := ⟨some "X", some (some "a?xobec=1")⟩

/-- A duplicate-name row pointing at municipality page b. -/
def dupRowB : SoupRow := ⟨some "X", some (some "b?xobec=2")⟩

/-- C10 witness: with two qualifying rows named "X", the returned dict holds
exactly one "X" entry, with the url and xobec code of the second row. -/
theorem extract_units_last_wins_witness :
    dictGet (extract_district_units [dupRowA, dupRowB] "http://h/p") "X" =
        some ("http://h/b?xobec=2", some "2") ∧
      countKey (extract_district_units [dupRowA, dupRowB] "http://h/p") "X" = 1 :=
  extract_units_last_wins [dupRowA, dupRowB] "http://h/p" "X"
    "http://h/b?xobec=2" (some "2") (by decide)
